import Mathlib

/-!
Shallow embedding of the recipe-management backend (Django app under
`src/app`): core data model (`core/models.py`), the nested-relation
reconciler and serializer create/update logic (`recipe/serializers.py`),
the ownership-scoped querysets (`recipe/views.py`), email normalization
(`core/models.py` / Django `BaseUserManager.normalize_email`), and the
image file-path generators (`core/models.py`).

Database rows are modelled as records in lists kept in insertion order;
many-to-many tables are lists of (parent id, child id) pairs; Django
`RelatedManager.add` has set semantics (adding an existing pair is a
no-op) and `clear` removes every pair of the parent.  Auto-increment
primary keys are modelled with explicit `next*Id` counters.  Decimal
columns (price, grams) are modelled as scaled integers.
-/

/-- One row of the `Tag` table (`core/models.py`, class `Tag`):
a user foreign key and a name. -/
structure TagRow where
  id : Nat
  user : Nat
  name : String
deriving DecidableEq, Repr

/-- One row of the `Ingredient` table (`core/models.py`, class
`Ingredient`): user foreign key, name, optional image path.  The
`nutrients` many-to-many lives in `Db.ingredientNutrients`. -/
structure IngredientRow where
  id : Nat
  user : Nat
  name : String
  image : Option String := none
deriving DecidableEq, Repr

/-- One row of the `Nutrient` table (`core/models.py`, class `Nutrient`):
user foreign key, name, grams (Decimal(5,2), modelled as a scaled Int). -/
structure NutrientRow where
  id : Nat
  user : Nat
  name : String
  grams : Int
deriving DecidableEq, Repr

/-- One row of the `Recipe` table (`core/models.py`, class `Recipe`).
The `tags` / `ingredients` many-to-many tables live in `Db.recipeTags`
and `Db.recipeIngredients`. -/
structure RecipeRow where
  id : Nat
  user : Nat
  title : String := ""
  time_minutes : Int := 0
  price : Int := 0
  description : String := ""
  link : String := ""
  image : Option String := none
deriving DecidableEq, Repr

/-- The database state: the five entity tables (User rows are only ever
referred to by id here), the three many-to-many association tables, and
the auto-increment counters for freshly created rows. -/
structure Db where
  tags : List TagRow := []
  ingredients : List IngredientRow := []
  nutrients : List NutrientRow := []
  recipes : List RecipeRow := []
  recipeTags : List (Nat × Nat) := []
  recipeIngredients : List (Nat × Nat) := []
  ingredientNutrients : List (Nat × Nat) := []
  nextTagId : Nat := 1
  nextIngredientId : Nat := 1
  nextNutrientId : Nat := 1
  nextRecipeId : Nat := 1
deriving DecidableEq, Repr

/-- Django `RelatedManager.add` on a many-to-many table: set semantics,
adding an already present (parent, child) pair is a no-op. -/
def m2mAdd (assoc : List (Nat × Nat)) (p c : Nat) : List (Nat × Nat) :=
  if (p, c) ∈ assoc then assoc else assoc ++ [(p, c)]

/-- Django `RelatedManager.clear` on a many-to-many table: remove every
association of the given parent. -/
def m2mClear (assoc : List (Nat × Nat)) (p : Nat) : List (Nat × Nat) :=
  assoc.filter (fun e => e.1 ≠ p)

/-- `Tag.objects.get_or_create(user=auth_user, **tag)` where the nested
tag mapping is `{name}`: look the row up by (user, name); if found return
it and leave the table unchanged, otherwise insert a fresh row with the
next id, the current user as owner and the mapping's name.  (Django
`get` would raise `MultipleObjectsReturned` on several matches; rows are
looked up as the first match, in keeping with the per-user name
uniqueness that this very path maintains.) -/
def tagGetOrCreate (db : Db) (u : Nat) (name : String) : Db × TagRow :=
  match db.tags.find? (fun r => r.user == u && r.name == name) with
  | some r => (db, r)
  | none =>
    let r : TagRow := ⟨db.nextTagId, u, name⟩
    ({ db with tags := db.tags ++ [r], nextTagId := db.nextTagId + 1 }, r)

/-- `Ingredient.objects.get_or_create(user=auth_user, **ingredient)`
where the nested ingredient mapping is `{name}`. -/
def ingredientGetOrCreate (db : Db) (u : Nat) (name : String) :
    Db × IngredientRow :=
  match db.ingredients.find? (fun r => r.user == u && r.name == name) with
  | some r => (db, r)
  | none =>
    let r : IngredientRow := ⟨db.nextIngredientId, u, name, none⟩
    ({ db with ingredients := db.ingredients ++ [r],
               nextIngredientId := db.nextIngredientId + 1 }, r)

/-- A nested nutrient mapping `{name, grams}` as validated by
`NutrientSerializer`. -/
structure NutrientMap where
  name : String
  grams : Int
deriving DecidableEq, Repr

/-- `Nutrient.objects.get_or_create(user=auth_user, **nutrient)`: the
mapping carries both scalar fields, so the lookup matches user, name and
grams. -/
def nutrientGetOrCreate (db : Db) (u : Nat) (m : NutrientMap) :
    Db × NutrientRow :=
  match db.nutrients.find?
      (fun r => r.user == u && r.name == m.name && r.grams == m.grams) with
  | some r => (db, r)
  | none =>
    let r : NutrientRow := ⟨db.nextNutrientId, u, m.name, m.grams⟩
    ({ db with nutrients := db.nutrients ++ [r],
               nextNutrientId := db.nextNutrientId + 1 }, r)

/-- One iteration of the loop in `RecipeSerializer._get_or_create_tags`:
`tag_obj, created = Tag.objects.get_or_create(...)` followed by
`recipe.tags.add(tag_obj)`. -/
def tagStep (db : Db) (recipeId u : Nat) (name : String) : Db :=
  let p := tagGetOrCreate db u name
  { p.1 with recipeTags := m2mAdd p.1.recipeTags recipeId p.2.id }

/-- `RecipeSerializer._get_or_create_tags(recipe, tags)`: for each nested
tag mapping in input order, get-or-create the tag for the authenticated
user and add it to the recipe's tags. -/
def _get_or_create_tags (db : Db) (recipeId u : Nat) :
    List String → Db
  | [] => db
  | name :: rest => _get_or_create_tags (tagStep db recipeId u name) recipeId u rest

/-- One iteration of the loop in
`RecipeSerializer._get_or_create_ingredients`. -/
def ingredientStep (db : Db) (recipeId u : Nat) (name : String) : Db :=
  let p := ingredientGetOrCreate db u name
  { p.1 with recipeIngredients := m2mAdd p.1.recipeIngredients recipeId p.2.id }

/-- `RecipeSerializer._get_or_create_ingredients(recipe, ingredients)`. -/
def _get_or_create_ingredients (db : Db) (recipeId u : Nat) :
    List String → Db
  | [] => db
  | name :: rest =>
    _get_or_create_ingredients (ingredientStep db recipeId u name) recipeId u rest

/-- One iteration of the loop in
`IngredientSerializer._get_or_create_nutrients`. -/
def nutrientStep (db : Db) (ingredientId u : Nat) (m : NutrientMap) : Db :=
  let p := nutrientGetOrCreate db u m
  { p.1 with ingredientNutrients := m2mAdd p.1.ingredientNutrients ingredientId p.2.id }

/-- `IngredientSerializer._get_or_create_nutrients(ingredient, nutrients)`. -/
def _get_or_create_nutrients (db : Db) (ingredientId u : Nat) :
    List NutrientMap → Db
  | [] => db
  | m :: rest =>
    _get_or_create_nutrients (nutrientStep db ingredientId u m) ingredientId u rest

/-- `validated_data` of `RecipeSerializer.update` / `create`: each field
is `some v` when the key is present in the payload and `none` when it is
absent (partial updates omit fields; `tags` / `ingredients` are declared
`required=False`). -/
structure RecipeVD where
  title? : Option String := none
  time_minutes? : Option Int := none
  price? : Option Int := none
  description? : Option String := none
  link? : Option String := none
  tags? : Option (List String) := none
  ingredients? : Option (List String) := none
deriving Repr

/-- The trailing `for attr, value in validated_data.items(): setattr(...)`
loop of `RecipeSerializer.update`, applied to the instance row. -/
def applyRecipeScalars (r : RecipeRow) (vd : RecipeVD) : RecipeRow :=
  { r with title := vd.title?.getD r.title,
           time_minutes := vd.time_minutes?.getD r.time_minutes,
           price := vd.price?.getD r.price,
           description := vd.description?.getD r.description,
           link := vd.link?.getD r.link }

namespace RecipeSerializer

/-- `RecipeSerializer.create(validated_data)`: pop `tags` / `ingredients`
with default `[]`, create the recipe row (owner supplied by
`perform_create` as `user=self.request.user`), then reconcile both
nested lists. -/
def create (db : Db) (u : Nat) (vd : RecipeVD) : Db × RecipeRow :=
  let tags := vd.tags?.getD []
  let ingredients := vd.ingredients?.getD []
  let r : RecipeRow :=
    { id := db.nextRecipeId, user := u, title := vd.title?.getD "",
      time_minutes := vd.time_minutes?.getD 0, price := vd.price?.getD 0,
      description := vd.description?.getD "", link := vd.link?.getD "" }
  let db1 := { db with recipes := db.recipes ++ [r],
                       nextRecipeId := db.nextRecipeId + 1 }
  let db2 := _get_or_create_tags db1 r.id u tags
  let db3 := _get_or_create_ingredients db2 r.id u ingredients
  (db3, r)

/-- `RecipeSerializer.update(instance, validated_data)`: pop `tags` and
`ingredients` with default `None`; for each list that is present, clear
the instance's associations of that relation and reconcile the new list;
an absent list leaves that relation alone; finally `setattr` the
remaining scalars and save. -/
def update (db : Db) (inst : RecipeRow) (u : Nat) (vd : RecipeVD) : Db :=
  let db1 :=
    match vd.tags? with
    | none => db
    | some ts =>
      _get_or_create_tags
        { db with recipeTags := m2mClear db.recipeTags inst.id } inst.id u ts
  let db2 :=
    match vd.ingredients? with
    | none => db1
    | some is =>
      _get_or_create_ingredients
        { db1 with recipeIngredients := m2mClear db1.recipeIngredients inst.id }
        inst.id u is
  { db2 with recipes :=
      db2.recipes.map (fun r => if r.id = inst.id then applyRecipeScalars r vd else r) }

end RecipeSerializer

/-- `validated_data` of `IngredientSerializer.update` / `create`. -/
structure IngredientVD where
  name? : Option String := none
  image? : Option String := none
  nutrients? : Option (List NutrientMap) := none
deriving Repr

/-- The trailing `setattr` loop of `IngredientSerializer.update`. -/
def applyIngredientScalars (r : IngredientRow) (vd : IngredientVD) : IngredientRow :=
  { r with name := vd.name?.getD r.name,
           image := match vd.image? with | none => r.image | some i => some i }

namespace IngredientSerializer

/-- `IngredientSerializer.create(validated_data)`: pop `nutrients` with
default `[]`, create the ingredient row for the requesting user, then
reconcile the nutrient list. -/
def create (db : Db) (u : Nat) (vd : IngredientVD) : Db × IngredientRow :=
  let nutrients := vd.nutrients?.getD []
  let r : IngredientRow :=
    { id := db.nextIngredientId, user := u, name := vd.name?.getD "",
      image := vd.image? }
  let db1 := { db with ingredients := db.ingredients ++ [r],
                       nextIngredientId := db.nextIngredientId + 1 }
  (_get_or_create_nutrients db1 r.id u nutrients, r)

/-- `IngredientSerializer.update(instance, validated_data)`.  The source
pops `nutrients` with default `[]` (an absent key yields the empty
list), so the following `if nutrients is not None:` guard is always
true — the clear-and-reconcile branch runs even when the payload has no
`nutrients` key at all. -/
def update (db : Db) (inst : IngredientRow) (u : Nat) (vd : IngredientVD) : Db :=
  let nutrients := vd.nutrients?.getD []
  let db1 :=
    _get_or_create_nutrients
      { db with ingredientNutrients := m2mClear db.ingredientNutrients inst.id }
      inst.id u nutrients
  { db1 with ingredients :=
      db1.ingredients.map (fun r => if r.id = inst.id then applyIngredientScalars r vd else r) }

end IngredientSerializer

/-! ### Views (`recipe/views.py`)

`order_by` is modelled as a sort by the relevant column; names are
compared lexicographically on their character lists (the database
collation).  `distinct()` removes duplicate result rows. -/

/-- `order_by('-name')`: descending by name. -/
def nameDesc {α} (nameOf : α → String) (a b : α) : Prop :=
  (nameOf b).data ≤ (nameOf a).data

instance {α} (nameOf : α → String) : DecidableRel (nameDesc nameOf) :=
  fun a b => inferInstanceAs (Decidable ((nameOf b).data ≤ (nameOf a).data))

instance {α} (nameOf : α → String) : IsTotal α (nameDesc nameOf) :=
  ⟨fun a b => le_total (nameOf b).data (nameOf a).data⟩

instance {α} (nameOf : α → String) : IsTrans α (nameDesc nameOf) :=
  ⟨fun _ _ _ h1 h2 => le_trans h2 h1⟩

/-- `order_by('-id')`: descending by primary key. -/
def idDesc {α} (idOf : α → Nat) (a b : α) : Prop := idOf b ≤ idOf a

instance {α} (idOf : α → Nat) : DecidableRel (idDesc idOf) :=
  fun a b => inferInstanceAs (Decidable (idOf b ≤ idOf a))

instance {α} (idOf : α → Nat) : IsTotal α (idDesc idOf) :=
  ⟨fun a b => le_total (idOf b) (idOf a)⟩

instance {α} (idOf : α → Nat) : IsTrans α (idDesc idOf) :=
  ⟨fun _ _ _ h1 h2 => le_trans h2 h1⟩

/-- `BaseRecipeAttrViewSet.get_queryset` for `TagViewSet`:
`self.queryset.filter(user=self.request.user).order_by('-name')`. -/
def tagGetQueryset (db : Db) (u : Nat) : List TagRow :=
  List.insertionSort (nameDesc TagRow.name) (db.tags.filter (fun r => r.user == u))

/-- `BaseRecipeAttrViewSet.get_queryset` for `IngredientViewSet`. -/
def ingredientGetQueryset (db : Db) (u : Nat) : List IngredientRow :=
  List.insertionSort (nameDesc IngredientRow.name)
    (db.ingredients.filter (fun r => r.user == u))

/-- `NutrientViewSet.get_queryset`:
`Nutrient.objects.filter(user=self.request.user)` — note: no `order_by`. -/
def nutrientGetQueryset (db : Db) (u : Nat) : List NutrientRow :=
  db.nutrients.filter (fun r => r.user == u)

/-- The tag list endpoint as a function of the request:
`BaseRecipeAttrViewSet.get_queryset` never reads `request.query_params`,
so the query parameters (in particular `assigned_only`) are ignored. -/
def tagList (db : Db) (u : Nat) (_queryParams : List (String × String)) :
    List TagRow :=
  tagGetQueryset db u

/-- The ingredient list endpoint as a function of the request; query
parameters are likewise ignored by the source. -/
def ingredientList (db : Db) (u : Nat) (_queryParams : List (String × String)) :
    List IngredientRow :=
  ingredientGetQueryset db u

/-- Python `str.split(sep)` for a one-character separator: splitting the
empty string yields `[""]`, a trailing separator yields a trailing empty
token. -/
def pySplit (sep : Char) : List Char → List (List Char)
  | [] => [[]]
  | c :: rest =>
    let r := pySplit sep rest
    if c = sep then [] :: r
    else
      match r with
      | [] => [[c]]
      | g :: gs => (c :: g) :: gs

/-- Python whitespace recognised by `str.strip()` / `int()` (ASCII part). -/
def isPySpace (c : Char) : Bool :=
  c == ' ' || c == '\t' || c == '\n' || c == '\r' ||
    c == Char.ofNat 11 || c == Char.ofNat 12

/-- Python `str.strip()` (ASCII whitespace). -/
def pyStrip (cs : List Char) : List Char :=
  ((cs.dropWhile isPySpace).reverse.dropWhile isPySpace).reverse

/-- Numeric value of an ASCII digit. -/
def digitVal (c : Char) : Nat := c.toNat - 48

/-- Digits after the first one in a Python integer literal: digits with
single underscores allowed between digits (`int("1_0") = 10`,
`int("1__0")` and `int("1_")` raise). -/
def pyDigitsAux : List Char → Nat → Option Nat
  | [], acc => some acc
  | '_' :: c :: rest, acc =>
    if c.isDigit then pyDigitsAux rest (acc * 10 + digitVal c) else none
  | ['_'], _ => none
  | c :: rest, acc =>
    if c.isDigit then pyDigitsAux rest (acc * 10 + digitVal c) else none

/-- A nonempty digit string (the part after the optional sign). -/
def pyUnsigned : List Char → Option Nat
  | [] => none
  | c :: rest => if c.isDigit then pyDigitsAux rest (digitVal c) else none

/-- Python `int(s)` on a decimal string: strip whitespace, optional
sign, then a nonempty digit string; `none` models a raised `ValueError`.
(Unicode digits and non-ASCII whitespace are out of scope.) -/
def pyInt (s : String) : Option Int :=
  match pyStrip s.data with
  | '+' :: rest => (pyUnsigned rest).map Int.ofNat
  | '-' :: rest => (pyUnsigned rest).map (fun n => -(n : Int))
  | cs => (pyUnsigned cs).map Int.ofNat

/-- The list comprehension `[int(str_id) for str_id in params.split(',')]`
with exception propagation: evaluated left to right, the first token on
which `int` raises aborts the whole conversion. -/
def intListOfTokens : List String → Except Unit (List Int)
  | [] => .ok []
  | t :: rest =>
    match pyInt t with
    | none => .error ()
    | some n =>
      match intListOfTokens rest with
      | .error e => .error e
      | .ok l => .ok (n :: l)

/-- `RecipeViewSet._params_to_ints(params)`:
`[int(str_id) for str_id in params.split(',')]`; `Except.error` models
the unhandled `ValueError` escaping the view. -/
def _params_to_ints (params : String) : Except Unit (List Int) :=
  intListOfTokens ((pySplit ',' params.data).map String.mk)

/-- The SQL join produced by `queryset.filter(tags__id__in=tag_ids)` (or
`ingredients__id__in`): one output row per (recipe, association) pair
whose association's child id is in the requested set. -/
def joinFilterByIds (rs : List RecipeRow) (assoc : List (Nat × Nat))
    (ids : List Int) : List RecipeRow :=
  rs.flatMap (fun r =>
    (assoc.filter (fun e => e.1 == r.id && ids.contains (Int.ofNat e.2))).map
      (fun _ => r))

/-- One `if tags:` (or `if ingredients:`) block of
`RecipeViewSet.get_queryset`: a present nonempty parameter is parsed by
`_params_to_ints` (whose `ValueError` propagates) and join-filters the
queryset; an absent or empty parameter leaves it alone. -/
def filterStage (qs : List RecipeRow) (assoc : List (Nat × Nat))
    (param : Option String) : Except Unit (List RecipeRow) :=
  match param with
  | none => .ok qs
  | some s =>
    if s = "" then .ok qs
    else
      match _params_to_ints s with
      | .error e => .error e
      | .ok ids => .ok (joinFilterByIds qs assoc ids)

/-- `RecipeViewSet.get_queryset`: the two conditional join filters, then
`.filter(user=self.request.user).order_by('-id').distinct()`. -/
def recipeGetQueryset (db : Db) (u : Nat)
    (tagsParam ingredientsParam : Option String) :
    Except Unit (List RecipeRow) :=
  match filterStage db.recipes db.recipeTags tagsParam with
  | .error e => .error e
  | .ok qs1 =>
    match filterStage qs1 db.recipeIngredients ingredientsParam with
    | .error e => .error e
    | .ok qs2 =>
      .ok (List.insertionSort (idDesc RecipeRow.id)
        ((qs2.filter (fun r => r.user == u)).dedup))

/-- DRF `GenericAPIView.get_object` for detail routes: look the pk up
inside the ownership-filtered `get_queryset()`; `none` models the
resulting HTTP 404 (`get_object_or_404`), which is also what a foreign
user's row produces — there is no permission-denied path. -/
def lookupByPk {α} (qs : List α) (idOf : α → Nat) (pk : Nat) : Option α :=
  qs.find? (fun r => idOf r == pk)

/-- DRF `DestroyModelMixin.destroy` for `TagViewSet`: resolve the object
through the ownership-filtered queryset; on 404 nothing is touched, else
the row and its associations are deleted.  `false` models HTTP 404. -/
def tagDestroy (db : Db) (u : Nat) (pk : Nat) : Db × Bool :=
  match lookupByPk (tagGetQueryset db u) TagRow.id pk with
  | none => (db, false)
  | some r =>
    ({ db with tags := db.tags.erase r,
               recipeTags := db.recipeTags.filter (fun e => e.2 ≠ r.id) }, true)

/-- DRF `DestroyModelMixin.destroy` for `IngredientViewSet`. -/
def ingredientDestroy (db : Db) (u : Nat) (pk : Nat) : Db × Bool :=
  match lookupByPk (ingredientGetQueryset db u) IngredientRow.id pk with
  | none => (db, false)
  | some r =>
    ({ db with ingredients := db.ingredients.erase r,
               recipeIngredients := db.recipeIngredients.filter (fun e => e.2 ≠ r.id),
               ingredientNutrients := db.ingredientNutrients.filter (fun e => e.1 ≠ r.id) },
     true)

/-- DRF `DestroyModelMixin.destroy` for `NutrientViewSet`. -/
def nutrientDestroy (db : Db) (u : Nat) (pk : Nat) : Db × Bool :=
  match lookupByPk (nutrientGetQueryset db u) NutrientRow.id pk with
  | none => (db, false)
  | some r =>
    ({ db with nutrients := db.nutrients.erase r,
               ingredientNutrients := db.ingredientNutrients.filter (fun e => e.2 ≠ r.id) },
     true)

/-- DRF `DestroyModelMixin.destroy` for `RecipeViewSet` (detail routes
carry no filter query parameters). -/
def recipeDestroy (db : Db) (u : Nat) (pk : Nat) : Db × Bool :=
  match recipeGetQueryset db u none none with
  | .error _ => (db, false)
  | .ok qs =>
    match lookupByPk qs RecipeRow.id pk with
    | none => (db, false)
    | some r =>
      ({ db with recipes := db.recipes.erase r,
                 recipeTags := db.recipeTags.filter (fun e => e.1 ≠ r.id),
                 recipeIngredients := db.recipeIngredients.filter (fun e => e.1 ≠ r.id) },
       true)

/-! ### User manager (`core/models.py`) -/

/-- `rsplit(sep, 1)` on a character list: split at the last occurrence
of `sep`; `none` models the `ValueError` of an absent separator. -/
def rsplitOnce (sep : Char) (cs : List Char) : Option (List Char × List Char) :=
  let p := cs.reverse.span (fun c => c != sep)
  match p.2 with
  | [] => none
  | _ :: preRev => some (preRev.reverse, p.1.reverse)

/-- Django `BaseUserManager.normalize_email`, called by
`UserManager.create_user` (framework code; embedded from its documented
algorithm): strip the string, split at the last `@`, lower-case the
domain part; a string without `@` is returned unchanged.  `Char.toLower`
covers the ASCII range. -/
def normalize_email (email : String) : String :=
  match rsplitOnce '@' (pyStrip email.data) with
  | none => email
  | some (name, domain) => String.mk (name ++ '@' :: domain.map Char.toLower)

/-- `UserManager.create_user`: reject a falsy (empty) email, store
`self.normalize_email(email)`.  The result is the stored email. -/
def create_user (email : String) : Except String String :=
  if email = "" then .error "Email was not provided."
  else .ok (normalize_email email)

/-! ### Image file paths (`core/models.py`) -/

/-- `os.path.splitext` on the basename part (no `/` handling): the
extension starts at the last dot, unless every character before it is a
dot (so `".bashrc"` has no extension). -/
def splitextBase (base : List Char) : List Char × List Char :=
  let p := base.reverse.span (fun c => c != '.')
  match p.2 with
  | [] => (base, [])
  | _ :: beforeRev =>
    if beforeRev.any (fun c => c != '.') then
      (beforeRev.reverse, '.' :: p.1.reverse)
    else (base, [])

/-- `os.path.splitext(p)` (posix: separator `/`, no altsep): dots are
only meaningful inside the final path component. -/
def splitext (p : String) : String × String :=
  match rsplitOnce '/' p.data with
  | none =>
    let q := splitextBase p.data
    (String.mk q.1, String.mk q.2)
  | some (d, b) =>
    let q := splitextBase b
    (String.mk (d ++ '/' :: q.1), String.mk q.2)

/-- `recipe_image_file_path(instance, filename)`: the `uuid.uuid4()`
draw is passed explicitly; the result is
`os.path.join('uploads', 'recipe', f'{uuid}{ext}')`. -/
def recipe_image_file_path (filename : String) (uuid : String) : String :=
  let ext := (splitext filename).2
  "uploads/recipe/" ++ uuid ++ ext

/-- `ingredient_image_file_path(instance, filename)`. -/
def ingredient_image_file_path (filename : String) (uuid : String) : String :=
  let ext := (splitext filename).2
  "uploads/ingredient/" ++ uuid ++ ext

/-! ### Verification vocabulary and concrete states -/

/-- The lookup key of `Tag.objects.get_or_create(user=auth_user, name=...)`:
a row matching the owner and the mapping's name. -/
def tagMatches (u : Nat) (name : String) (r : TagRow) : Bool :=
  r.user == u && r.name == name

/-- An ingredient with one associated nutrient, as in the repository's
own ingredient-update tests. -/
def ingDb : Db :=
  { ingredients := [⟨1, 7, "Potato", none⟩],
    nutrients := [⟨5, 7, "Calcium", 297⟩],
    ingredientNutrients := [(1, 5)],
    nextIngredientId := 2, nextNutrientId := 6 }

/-- A database holding one "Thai" tag owned by user 7. -/
def thaiDb : Db := { tags := [⟨1, 7, "Thai"⟩], nextTagId := 2 }

/-- Two tags of user 7 plus a foreign tag of user 8. -/
def isoDb : Db :=
  { tags := [⟨1, 7, "A"⟩, ⟨2, 8, "B"⟩], nextTagId := 3 }

/-- Two nutrients of user 7 stored in ascending name order. -/
def nutDb : Db :=
  { nutrients := [⟨1, 7, "Alpha", 100⟩, ⟨2, 7, "Beta", 200⟩],
    nextNutrientId := 3 }

/-- The state of the repository's `test_filter_tags_assigned_to_recipe`
test: user 7 owns tag "Breakfast" (assigned to a recipe) and tag
"Lunch" (assigned to nothing). -/
def assignedDb : Db :=
  { tags := [⟨1, 7, "Breakfast"⟩, ⟨2, 7, "Lunch"⟩],
    recipes := [{ id := 10, user := 7, title := "Egg Toast" }],
    recipeTags := [(10, 1)],
    nextTagId := 3, nextRecipeId := 11 }

/-- One recipe of user 7 carrying both tag 1 and tag 2. -/
def twoTagDb : Db :=
  { tags := [⟨1, 7, "X"⟩, ⟨2, 7, "Y"⟩],
    recipes := [{ id := 1, user := 7, title := "Pasta" }],
    recipeTags := [(1, 1), (1, 2)],
    nextTagId := 3, nextRecipeId := 2 }

/-! ## Generic list and string lemmas -/

theorem takeWhile_append_of {α} (p : α → Bool) :
    ∀ (a : List α), (∀ x ∈ a, p x = true) →
      ∀ (c : α) (cs : List α), p c = false → (a ++ c :: cs).takeWhile p = a := by
  intro a
  induction a with
  | nil => intro _ c cs hc; simp [List.takeWhile_cons, hc]
  | cons x xs ih =>
    intro h c cs hc
    have hx : p x = true := h x (by simp)
    simp only [List.cons_append, List.takeWhile_cons, hx, if_true]
    rw [ih (fun y hy => h y (by simp [hy])) c cs hc]

theorem dropWhile_append_of {α} (p : α → Bool) :
    ∀ (a : List α), (∀ x ∈ a, p x = true) →
      ∀ (c : α) (cs : List α), p c = false → (a ++ c :: cs).dropWhile p = c :: cs := by
  intro a
  induction a with
  | nil => intro _ c cs hc; simp [List.dropWhile_cons, hc]
  | cons x xs ih =>
    intro h c cs hc
    have hx : p x = true := h x (by simp)
    simp only [List.cons_append, List.dropWhile_cons, hx, if_true]
    exact ih (fun y hy => h y (by simp [hy])) c cs hc

theorem span_append_of {α} (p : α → Bool) (a : List α) (h : ∀ x ∈ a, p x = true)
    (c : α) (cs : List α) (hc : p c = false) : (a ++ c :: cs).span p = (a, c :: cs) := by
  rw [List.span_eq_take_drop, takeWhile_append_of p a h c cs hc,
      dropWhile_append_of p a h c cs hc]

theorem takeWhile_eq_self_of {α} (p : α → Bool) :
    ∀ (l : List α), (∀ x ∈ l, p x = true) → l.takeWhile p = l := by
  intro l
  induction l with
  | nil => intro _; rfl
  | cons x xs ih =>
    intro h
    simp only [List.takeWhile_cons, h x (by simp), if_true]
    rw [ih (fun y hy => h y (by simp [hy]))]

theorem dropWhile_eq_nil_of {α} (p : α → Bool) :
    ∀ (l : List α), (∀ x ∈ l, p x = true) → l.dropWhile p = [] := by
  intro l
  induction l with
  | nil => intro _; rfl
  | cons x xs ih =>
    intro h
    simp only [List.dropWhile_cons, h x (by simp), if_true]
    exact ih (fun y hy => h y (by simp [hy]))

theorem span_all_of {α} (p : α → Bool) (l : List α) (h : ∀ x ∈ l, p x = true) :
    l.span p = (l, []) := by
  rw [List.span_eq_take_drop, takeWhile_eq_self_of p l h, dropWhile_eq_nil_of p l h]

theorem dropWhile_eq_self_of {α} (p : α → Bool) (l : List α)
    (h : ∀ x ∈ l, p x = false) : l.dropWhile p = l := by
  cases l with
  | nil => rfl
  | cons x xs => simp [List.dropWhile_cons, h x (by simp)]

theorem rsplitOnce_append (sep : Char) (pre suf : List Char) (h : sep ∉ suf) :
    rsplitOnce sep (pre ++ sep :: suf) = some (pre, suf) := by
  have hrev : (pre ++ sep :: suf).reverse = suf.reverse ++ sep :: pre.reverse := by
    simp
  have hall : ∀ x ∈ suf.reverse, (x != sep) = true := by
    intro x hx
    have : x ∈ suf := List.mem_reverse.mp hx
    simp only [bne_iff_ne, ne_eq]
    intro he; exact h (he ▸ this)
  have hsep : (sep != sep) = false := by simp
  unfold rsplitOnce
  rw [hrev, span_append_of _ _ hall _ _ hsep]
  simp

theorem rsplitOnce_eq_none (sep : Char) (cs : List Char) (h : sep ∉ cs) :
    rsplitOnce sep cs = none := by
  have hall : ∀ x ∈ cs.reverse, (x != sep) = true := by
    intro x hx
    have : x ∈ cs := List.mem_reverse.mp hx
    simp only [bne_iff_ne, ne_eq]
    intro he; exact h (he ▸ this)
  unfold rsplitOnce
  rw [span_all_of _ _ hall]

theorem pyStrip_eq_self (cs : List Char) (h : ∀ c ∈ cs, isPySpace c = false) :
    pyStrip cs = cs := by
  unfold pyStrip
  rw [dropWhile_eq_self_of _ _ h, dropWhile_eq_self_of, List.reverse_reverse]
  intro c hc
  exact h c (List.mem_reverse.mp hc)

/-! ## C1: update-clears-on-presence -/

/-- C1: the claim that an update payload without the child-list field
leaves associations untouched FAILS for `IngredientSerializer.update`:
its `validated_data.pop('nutrients', [])` defaults to the empty list, so
the `if nutrients is not None:` guard is always true and a PATCH without
a `nutrients` key still clears all nutrient associations.  This theorem
evaluates the embedded code at that failing input: an ingredient with
one nutrient association, updated with a payload carrying only a new
name, loses the association. -/
theorem claim_C1 :
    ingDb.ingredientNutrients = [(1, 5)] ∧
    (IngredientSerializer.update ingDb ⟨1, 7, "Potato", none⟩ 7
        { name? := some "Tomato" }).ingredientNutrients = [] ∧
    (RecipeSerializer.update { recipeTags := [(1, 5)] }
        { id := 1, user := 7 } 7 {}).recipeTags = [(1, 5)] :=
  ⟨rfl, rfl, rfl⟩

/-! ## C6: assigned_only -/

/-- C6: the claimed `assigned_only=1` restriction does not exist in the
code: `BaseRecipeAttrViewSet.get_queryset` never reads the query
parameters, so in the state of the repository's own
`test_filter_tags_assigned_to_recipe` test the unassigned tag "Lunch"
(id 2, associated with no recipe) is still returned. -/
theorem claim_C6 :
    tagList assignedDb 7 [("assigned_only", "1")] =
      [⟨2, 7, "Lunch"⟩, ⟨1, 7, "Breakfast"⟩] ∧
    (∀ e ∈ assignedDb.recipeTags, e.2 ≠ 2) ∧
    (∀ qp : List (String × String), tagList assignedDb 7 qp = tagGetQueryset assignedDb 7) :=
  ⟨by decide, by decide, fun _ => rfl⟩

/-! ## C5: list ordering -/

/-- C5 (counterexample): the claim says Nutrient lists are ordered by
name descending; `NutrientViewSet.get_queryset` applies no `order_by`,
so with two nutrients stored in ascending name order the listing is not
name-descending. -/
theorem claim_C5_counterexample :
    nutrientGetQueryset nutDb 7 = [⟨1, 7, "Alpha", 100⟩, ⟨2, 7, "Beta", 200⟩] ∧
    ¬ List.Sorted (nameDesc NutrientRow.name) (nutrientGetQueryset nutDb 7) :=
  ⟨rfl, by decide⟩

/-! ## C10: filter parameter parsing -/

/-- C10: `_params_to_ints` applies an unguarded `int()` to every
comma-separated token: any token on which `int` raises (modelled as
`pyInt = none`, e.g. `"abc"` or the empty token of a trailing comma)
makes the whole conversion raise `ValueError` (`Except.error`), which
escapes `RecipeViewSet.get_queryset`; when every token is a decimal
integer the conversion is total and returns their values. -/
theorem claim_C10 :
    (∀ s : String, (∃ t ∈ (pySplit ',' s.data).map String.mk, pyInt t = none) →
      _params_to_ints s = .error ()) ∧
    (∀ s : String, (∀ t ∈ (pySplit ',' s.data).map String.mk, (pyInt t).isSome) →
      _params_to_ints s = .ok (((pySplit ',' s.data).map String.mk).filterMap pyInt)) ∧
    pyInt "abc" = none ∧
    _params_to_ints "abc" = .error () ∧
    _params_to_ints "1," = .error () ∧
    _params_to_ints "1,23" = .ok [1, 23] ∧
    (∀ db : Db, ∀ u : Nat, recipeGetQueryset db u (some "abc") none = .error ()) := by
  have herr : ∀ ts : List String, (∃ t ∈ ts, pyInt t = none) →
      intListOfTokens ts = .error () := by
    intro ts
    induction ts with
    | nil => rintro ⟨t, ht, _⟩; cases ht
    | cons t rest ih =>
      rintro ⟨t0, ht0, hfail⟩
      rcases List.mem_cons.mp ht0 with h | h
      · subst h; simp [intListOfTokens, hfail]
      · cases hp : pyInt t with
        | none => simp [intListOfTokens, hp]
        | some n =>
          simp only [intListOfTokens, hp]
          rw [ih ⟨t0, h, hfail⟩]
  have hok : ∀ ts : List String, (∀ t ∈ ts, (pyInt t).isSome) →
      intListOfTokens ts = .ok (ts.filterMap pyInt) := by
    intro ts
    induction ts with
    | nil => intro _; rfl
    | cons t rest ih =>
      intro h
      rcases Option.isSome_iff_exists.mp (h t (by simp)) with ⟨n, hn⟩
      simp only [intListOfTokens, hn, List.filterMap_cons]
      rw [ih (fun x hx => h x (by simp [hx]))]
  refine ⟨fun s h => herr _ h, fun s h => hok _ h, by decide, rfl, rfl, rfl, fun db u => rfl⟩

/-! ## C8: email normalization -/

/-- C8: for every accepted email (nonempty, whitespace-free — the
serializer's EmailField trims and validates before `create_user` runs —
and of shape local@domain with no further `@` in the domain), the stored
email is the local part unchanged followed by `@` and the lower-cased
domain; concretely `Sample@EXAMPLE.COM` is stored as
`Sample@example.com`. -/
theorem claim_C8 :
    (∀ lp dp : List Char, '@' ∉ dp →
      (∀ c ∈ lp ++ '@' :: dp, isPySpace c = false) →
      create_user (String.mk (lp ++ '@' :: dp)) =
        .ok (String.mk (lp ++ '@' :: dp.map Char.toLower))) ∧
    create_user "Sample@EXAMPLE.COM" = .ok "Sample@example.com" := by
  constructor
  · intro lp dp hdp hws
    have hne : String.mk (lp ++ '@' :: dp) ≠ "" := by
      simp [String.ext_iff]
    rw [create_user, if_neg hne]
    have hdata : (String.mk (lp ++ '@' :: dp)).data = lp ++ '@' :: dp := rfl
    rw [normalize_email, hdata, pyStrip_eq_self _ hws, rsplitOnce_append _ _ _ hdp]
  · rfl

/-- Witness for C8 at a concrete accepted email. -/
theorem claim_C8_witness :
    ('@' ∉ "example.com".data) ∧
    (∀ c ∈ "Bob".data ++ '@' :: "example.com".data, isPySpace c = false) ∧
    create_user (String.mk ("Bob".data ++ '@' :: "example.com".data)) =
      .ok (String.mk ("Bob".data ++ '@' :: "example.com".data.map Char.toLower)) :=
  ⟨by decide, by decide, claim_C8.1 "Bob".data "example.com".data (by decide) (by decide)⟩

/-! ## C9: image file paths -/

theorem splitext_of (base e : List Char) (hb : ∃ c ∈ base, c ≠ '.')
    (he : '.' ∉ e) (hsb : '/' ∉ base) (hse : '/' ∉ e) :
    splitext (String.mk (base ++ '.' :: e)) = (String.mk base, String.mk ('.' :: e)) := by
  have hslash : '/' ∉ (base ++ '.' :: e) := by
    intro h
    rcases List.mem_append.mp h with h1 | h1
    · exact hsb h1
    · rcases List.mem_cons.mp h1 with h2 | h2
      · cases h2
      · exact hse h2
  have hdata : (String.mk (base ++ '.' :: e)).data = base ++ '.' :: e := rfl
  rw [splitext, hdata, rsplitOnce_eq_none _ _ hslash]
  have hrev : (base ++ '.' :: e).reverse = e.reverse ++ '.' :: base.reverse := by simp
  have hall : ∀ x ∈ e.reverse, (x != '.') = true := by
    intro x hx
    have : x ∈ e := List.mem_reverse.mp hx
    simp only [bne_iff_ne, ne_eq]
    intro hxe; exact he (hxe ▸ this)
  have hdot : (('.' : Char) != '.') = false := by simp
  rw [splitextBase, hrev, span_append_of _ _ hall _ _ hdot]
  have hany : base.reverse.any (fun c => c != '.') = true := by
    rcases hb with ⟨c, hc, hcd⟩
    exact List.any_eq_true.mpr ⟨c, List.mem_reverse.mpr hc, by simpa using hcd⟩
  simp [hany]

/-- C9: for every original filename with an extension, the generated
path is the fixed category directory (`uploads/recipe` respectively
`uploads/ingredient`) followed by the uuid draw with exactly the
original extension appended; distinct uuid draws give distinct paths. -/
theorem claim_C9 :
    (∀ base e uuid : List Char, (∃ c ∈ base, c ≠ '.') → '.' ∉ e →
      '/' ∉ base → '/' ∉ e →
      recipe_image_file_path (String.mk (base ++ '.' :: e)) (String.mk uuid) =
        String.mk ("uploads/recipe/".data ++ uuid ++ '.' :: e) ∧
      ingredient_image_file_path (String.mk (base ++ '.' :: e)) (String.mk uuid) =
        String.mk ("uploads/ingredient/".data ++ uuid ++ '.' :: e)) ∧
    (∀ fn u1 u2 : String,
      recipe_image_file_path fn u1 = recipe_image_file_path fn u2 → u1 = u2) ∧
    (∀ fn u1 u2 : String,
      ingredient_image_file_path fn u1 = ingredient_image_file_path fn u2 → u1 = u2) := by
  refine ⟨fun base e uuid hb he hsb hse => ?_, fun fn u1 u2 h => ?_, fun fn u1 u2 h => ?_⟩
  · rw [recipe_image_file_path, ingredient_image_file_path, splitext_of base e hb he hsb hse]
    constructor <;> simp [String.ext_iff, String.data_append]
  · rw [recipe_image_file_path, recipe_image_file_path] at h
    have h2 := String.ext_iff.mp h
    simp only [String.data_append, List.append_assoc] at h2
    have h3 := List.append_cancel_left h2
    have h4 := List.append_cancel_right h3
    exact String.ext h4
  · rw [ingredient_image_file_path, ingredient_image_file_path] at h
    have h2 := String.ext_iff.mp h
    simp only [String.data_append, List.append_assoc] at h2
    have h3 := List.append_cancel_left h2
    have h4 := List.append_cancel_right h3
    exact String.ext h4

/-- Witness for C9 at a concrete filename and uuid. -/
theorem claim_C9_witness :
    (∃ c ∈ "photo".data, c ≠ '.') ∧ ('.' ∉ "jpg".data) ∧
    ('/' ∉ "photo".data) ∧ ('/' ∉ "jpg".data) ∧
    recipe_image_file_path (String.mk ("photo".data ++ '.' :: "jpg".data))
        (String.mk "u1".data) =
      String.mk ("uploads/recipe/".data ++ "u1".data ++ '.' :: "jpg".data) :=
  ⟨by decide, by decide, by decide, by decide,
    (claim_C9.1 "photo".data "jpg".data "u1".data
      (by decide) (by decide) (by decide) (by decide)).1⟩

/-- Witness for C10: a failing token aborts the parse, an all-integer
parameter parses totally. -/
theorem claim_C10_witness :
    (∃ t ∈ (pySplit ',' "1,x".data).map String.mk, pyInt t = none) ∧
    _params_to_ints "1,x" = .error () ∧
    (∀ t ∈ (pySplit ',' "2,3".data).map String.mk, (pyInt t).isSome) ∧
    _params_to_ints "2,3" =
      .ok (((pySplit ',' "2,3".data).map String.mk).filterMap pyInt) :=
  ⟨by decide, claim_C10.1 "1,x" (by decide), by decide,
    claim_C10.2.1 "2,3" (by decide)⟩

/-! ## C5 (amended): ordering of list endpoints -/

/-- C5 (amended): Tag and Ingredient lists are ordered by name
descending and Recipe lists by id descending, as claimed; Nutrient lists
however have no ordering applied — `NutrientViewSet.get_queryset` is the
bare ownership filter. -/
theorem claim_C5 :
    (∀ (db : Db) (u : Nat), List.Sorted (nameDesc TagRow.name) (tagGetQueryset db u)) ∧
    (∀ (db : Db) (u : Nat),
      List.Sorted (nameDesc IngredientRow.name) (ingredientGetQueryset db u)) ∧
    (∀ (db : Db) (u : Nat) (tp ip : Option String) (res : List RecipeRow),
      recipeGetQueryset db u tp ip = .ok res → List.Sorted (idDesc RecipeRow.id) res) ∧
    (∀ (db : Db) (u : Nat),
      nutrientGetQueryset db u = db.nutrients.filter (fun r => r.user == u)) := by
  refine ⟨fun db u => ?_, fun db u => ?_, fun db u tp ip res h => ?_, fun db u => rfl⟩
  · exact List.sorted_insertionSort (nameDesc TagRow.name) _
  · exact List.sorted_insertionSort (nameDesc IngredientRow.name) _
  · unfold recipeGetQueryset at h
    cases hfs1 : filterStage db.recipes db.recipeTags tp with
    | error e => rw [hfs1] at h; cases h
    | ok qs1 =>
      rw [hfs1] at h
      dsimp only at h
      cases hfs2 : filterStage qs1 db.recipeIngredients ip with
      | error e => rw [hfs2] at h; cases h
      | ok qs2 =>
        rw [hfs2] at h
        dsimp only at h
        cases h
        exact List.sorted_insertionSort (idDesc RecipeRow.id) _

/-- Witness for C5 at a concrete recipe queryset. -/
theorem claim_C5_witness :
    recipeGetQueryset twoTagDb 7 none none =
      .ok [{ id := 1, user := 7, title := "Pasta" }] ∧
    List.Sorted (idDesc RecipeRow.id) [{ id := 1, user := 7, title := "Pasta" }] :=
  ⟨rfl, claim_C5.2.2.1 twoTagDb 7 none none
    [{ id := 1, user := 7, title := "Pasta" }] rfl⟩

/-! ## C2: get-or-create resolution -/

theorem m2mAdd_self_mem (assoc : List (Nat × Nat)) (p c : Nat) :
    (p, c) ∈ m2mAdd assoc p c := by
  by_cases h : (p, c) ∈ assoc <;> simp [m2mAdd, h]

theorem m2mAdd_mem_of (assoc : List (Nat × Nat)) (p c : Nat) {e : Nat × Nat}
    (h : e ∈ assoc) : e ∈ m2mAdd assoc p c := by
  by_cases hm : (p, c) ∈ assoc <;> simp [m2mAdd, hm, h]

theorem m2mAdd_eq_of_mem {assoc : List (Nat × Nat)} {p c : Nat}
    (h : (p, c) ∈ assoc) : m2mAdd assoc p c = assoc := if_pos h

theorem tagGetOrCreate_recipeTags (db : Db) (u : Nat) (nm : String) :
    (tagGetOrCreate db u nm).1.recipeTags = db.recipeTags := by
  unfold tagGetOrCreate
  cases h : db.tags.find? (fun r => r.user == u && r.name == nm) <;> simp

theorem tagStep_recipeTags (db : Db) (rid u : Nat) (nm : String) :
    (tagStep db rid u nm).recipeTags =
      m2mAdd db.recipeTags rid (tagGetOrCreate db u nm).2.id := by
  unfold tagStep
  rw [show ({ (tagGetOrCreate db u nm).1 with
        recipeTags := m2mAdd (tagGetOrCreate db u nm).1.recipeTags rid
          (tagGetOrCreate db u nm).2.id } : Db).recipeTags =
      m2mAdd (tagGetOrCreate db u nm).1.recipeTags rid (tagGetOrCreate db u nm).2.id
    from rfl, tagGetOrCreate_recipeTags]

theorem goc_tags_assoc_mono :
    ∀ (ts : List String) (db : Db) (rid u : Nat) (e : Nat × Nat),
      e ∈ db.recipeTags → e ∈ (_get_or_create_tags db rid u ts).recipeTags := by
  intro ts
  induction ts with
  | nil => intro db rid u e h; exact h
  | cons nm rest ih =>
    intro db rid u e h
    show e ∈ (_get_or_create_tags (tagStep db rid u nm) rid u rest).recipeTags
    apply ih
    rw [tagStep_recipeTags]
    exact m2mAdd_mem_of _ _ _ h

theorem ingredientGetOrCreate_recipeIngredients (db : Db) (u : Nat) (nm : String) :
    (ingredientGetOrCreate db u nm).1.recipeIngredients = db.recipeIngredients := by
  unfold ingredientGetOrCreate
  cases h : db.ingredients.find? (fun r => r.user == u && r.name == nm) <;> simp

theorem ingredientStep_recipeIngredients (db : Db) (rid u : Nat) (nm : String) :
    (ingredientStep db rid u nm).recipeIngredients =
      m2mAdd db.recipeIngredients rid (ingredientGetOrCreate db u nm).2.id := by
  unfold ingredientStep
  rw [show ({ (ingredientGetOrCreate db u nm).1 with
        recipeIngredients := m2mAdd (ingredientGetOrCreate db u nm).1.recipeIngredients
          rid (ingredientGetOrCreate db u nm).2.id } : Db).recipeIngredients =
      m2mAdd (ingredientGetOrCreate db u nm).1.recipeIngredients rid
        (ingredientGetOrCreate db u nm).2.id
    from rfl, ingredientGetOrCreate_recipeIngredients]

theorem goc_ingredients_assoc_mono :
    ∀ (ts : List String) (db : Db) (rid u : Nat) (e : Nat × Nat),
      e ∈ db.recipeIngredients →
        e ∈ (_get_or_create_ingredients db rid u ts).recipeIngredients := by
  intro ts
  induction ts with
  | nil => intro db rid u e h; exact h
  | cons nm rest ih =>
    intro db rid u e h
    show e ∈ (_get_or_create_ingredients (ingredientStep db rid u nm) rid u
        rest).recipeIngredients
    apply ih
    rw [ingredientStep_recipeIngredients]
    exact m2mAdd_mem_of _ _ _ h

theorem nutrientGetOrCreate_ingredientNutrients (db : Db) (u : Nat) (m : NutrientMap) :
    (nutrientGetOrCreate db u m).1.ingredientNutrients = db.ingredientNutrients := by
  unfold nutrientGetOrCreate
  cases h : db.nutrients.find?
      (fun r => r.user == u && r.name == m.name && r.grams == m.grams) <;> simp

theorem nutrientStep_ingredientNutrients (db : Db) (iid u : Nat) (m : NutrientMap) :
    (nutrientStep db iid u m).ingredientNutrients =
      m2mAdd db.ingredientNutrients iid (nutrientGetOrCreate db u m).2.id := by
  unfold nutrientStep
  rw [show ({ (nutrientGetOrCreate db u m).1 with
        ingredientNutrients := m2mAdd (nutrientGetOrCreate db u m).1.ingredientNutrients
          iid (nutrientGetOrCreate db u m).2.id } : Db).ingredientNutrients =
      m2mAdd (nutrientGetOrCreate db u m).1.ingredientNutrients iid
        (nutrientGetOrCreate db u m).2.id
    from rfl, nutrientGetOrCreate_ingredientNutrients]

theorem goc_nutrients_assoc_mono :
    ∀ (ms : List NutrientMap) (db : Db) (iid u : Nat) (e : Nat × Nat),
      e ∈ db.ingredientNutrients →
        e ∈ (_get_or_create_nutrients db iid u ms).ingredientNutrients := by
  intro ms
  induction ms with
  | nil => intro db iid u e h; exact h
  | cons m rest ih =>
    intro db iid u e h
    show e ∈ (_get_or_create_nutrients (nutrientStep db iid u m) iid u
        rest).ingredientNutrients
    apply ih
    rw [nutrientStep_ingredientNutrients]
    exact m2mAdd_mem_of _ _ _ h

/-- C2: per-mapping get-or-create resolution, for all three nested
relations.  Reuse case: when a row matching (owner, all scalar fields of
the mapping) exists, the database is unchanged and the resolved child is
that existing row.  Create case: when no such row exists, exactly one
new row is appended, owned by the current user and carrying the mapping's
fields.  Either way the resolved child's association with the parent is
in the reconciler's output (mappings are processed in input order, the
head first). -/
theorem claim_C2 :
    (∀ (db : Db) (u : Nat) (name : String),
      (∃ r ∈ db.tags, r.user = u ∧ r.name = name) →
        (tagGetOrCreate db u name).1 = db ∧
        (tagGetOrCreate db u name).2 ∈ db.tags ∧
        (tagGetOrCreate db u name).2.user = u ∧
        (tagGetOrCreate db u name).2.name = name) ∧
    (∀ (db : Db) (u : Nat) (name : String),
      (∀ r ∈ db.tags, ¬(r.user = u ∧ r.name = name)) →
        (tagGetOrCreate db u name).1 =
          { db with tags := db.tags ++ [(tagGetOrCreate db u name).2],
                    nextTagId := db.nextTagId + 1 } ∧
        (tagGetOrCreate db u name).2.user = u ∧
        (tagGetOrCreate db u name).2.name = name) ∧
    (∀ (db : Db) (rid u : Nat) (name : String) (rest : List String),
      (rid, (tagGetOrCreate db u name).2.id) ∈
        (_get_or_create_tags db rid u (name :: rest)).recipeTags) ∧
    (∀ (db : Db) (u : Nat) (name : String),
      (∃ r ∈ db.ingredients, r.user = u ∧ r.name = name) →
        (ingredientGetOrCreate db u name).1 = db ∧
        (ingredientGetOrCreate db u name).2 ∈ db.ingredients ∧
        (ingredientGetOrCreate db u name).2.user = u ∧
        (ingredientGetOrCreate db u name).2.name = name) ∧
    (∀ (db : Db) (u : Nat) (name : String),
      (∀ r ∈ db.ingredients, ¬(r.user = u ∧ r.name = name)) →
        (ingredientGetOrCreate db u name).1 =
          { db with ingredients := db.ingredients ++ [(ingredientGetOrCreate db u name).2],
                    nextIngredientId := db.nextIngredientId + 1 } ∧
        (ingredientGetOrCreate db u name).2.user = u ∧
        (ingredientGetOrCreate db u name).2.name = name) ∧
    (∀ (db : Db) (rid u : Nat) (name : String) (rest : List String),
      (rid, (ingredientGetOrCreate db u name).2.id) ∈
        (_get_or_create_ingredients db rid u (name :: rest)).recipeIngredients) ∧
    (∀ (db : Db) (u : Nat) (m : NutrientMap),
      (∃ r ∈ db.nutrients, r.user = u ∧ r.name = m.name ∧ r.grams = m.grams) →
        (nutrientGetOrCreate db u m).1 = db ∧
        (nutrientGetOrCreate db u m).2 ∈ db.nutrients ∧
        (nutrientGetOrCreate db u m).2.user = u ∧
        (nutrientGetOrCreate db u m).2.name = m.name ∧
        (nutrientGetOrCreate db u m).2.grams = m.grams) ∧
    (∀ (db : Db) (u : Nat) (m : NutrientMap),
      (∀ r ∈ db.nutrients, ¬(r.user = u ∧ r.name = m.name ∧ r.grams = m.grams)) →
        (nutrientGetOrCreate db u m).1 =
          { db with nutrients := db.nutrients ++ [(nutrientGetOrCreate db u m).2],
                    nextNutrientId := db.nextNutrientId + 1 } ∧
        (nutrientGetOrCreate db u m).2.user = u ∧
        (nutrientGetOrCreate db u m).2.name = m.name ∧
        (nutrientGetOrCreate db u m).2.grams = m.grams) ∧
    (∀ (db : Db) (iid u : Nat) (m : NutrientMap) (rest : List NutrientMap),
      (iid, (nutrientGetOrCreate db u m).2.id) ∈
        (_get_or_create_nutrients db iid u (m :: rest)).ingredientNutrients) := by
  refine ⟨?_, ?_, ?_, ?_, ?_, ?_, ?_, ?_, ?_⟩
  · rintro db u name ⟨r, hr, hu, hn⟩
    have hs : (db.tags.find? (fun r => r.user == u && r.name == name)).isSome :=
      List.find?_isSome.mpr ⟨r, hr, by simp [hu, hn]⟩
    rcases Option.isSome_iff_exists.mp hs with ⟨r2, hr2⟩
    have hp := List.find?_some hr2
    simp only [Bool.and_eq_true, beq_iff_eq] at hp
    have hm := List.mem_of_find?_eq_some hr2
    simp [tagGetOrCreate, hr2, hm, hp.1, hp.2]
  · intro db u name h
    have hn : db.tags.find? (fun r => r.user == u && r.name == name) = none := by
      rw [List.find?_eq_none]
      intro x hx
      simp only [Bool.and_eq_true, beq_iff_eq]
      rintro ⟨h1, h2⟩
      exact h x hx ⟨h1, h2⟩
    simp [tagGetOrCreate, hn]
  · intro db rid u name rest
    show (rid, (tagGetOrCreate db u name).2.id) ∈
      (_get_or_create_tags (tagStep db rid u name) rid u rest).recipeTags
    apply goc_tags_assoc_mono
    rw [tagStep_recipeTags]
    exact m2mAdd_self_mem _ _ _
  · rintro db u name ⟨r, hr, hu, hn⟩
    have hs : (db.ingredients.find? (fun r => r.user == u && r.name == name)).isSome :=
      List.find?_isSome.mpr ⟨r, hr, by simp [hu, hn]⟩
    rcases Option.isSome_iff_exists.mp hs with ⟨r2, hr2⟩
    have hp := List.find?_some hr2
    simp only [Bool.and_eq_true, beq_iff_eq] at hp
    have hm := List.mem_of_find?_eq_some hr2
    simp [ingredientGetOrCreate, hr2, hm, hp.1, hp.2]
  · intro db u name h
    have hn : db.ingredients.find? (fun r => r.user == u && r.name == name) = none := by
      rw [List.find?_eq_none]
      intro x hx
      simp only [Bool.and_eq_true, beq_iff_eq]
      rintro ⟨h1, h2⟩
      exact h x hx ⟨h1, h2⟩
    simp [ingredientGetOrCreate, hn]
  · intro db rid u name rest
    show (rid, (ingredientGetOrCreate db u name).2.id) ∈
      (_get_or_create_ingredients (ingredientStep db rid u name) rid u
        rest).recipeIngredients
    apply goc_ingredients_assoc_mono
    rw [ingredientStep_recipeIngredients]
    exact m2mAdd_self_mem _ _ _
  · rintro db u m ⟨r, hr, hu, hn, hg⟩
    have hs : (db.nutrients.find?
        (fun r => r.user == u && r.name == m.name && r.grams == m.grams)).isSome :=
      List.find?_isSome.mpr ⟨r, hr, by simp [hu, hn, hg]⟩
    rcases Option.isSome_iff_exists.mp hs with ⟨r2, hr2⟩
    have hp := List.find?_some hr2
    simp only [Bool.and_eq_true, beq_iff_eq] at hp
    have hm := List.mem_of_find?_eq_some hr2
    simp [nutrientGetOrCreate, hr2, hm, hp.1.1, hp.1.2, hp.2]
  · intro db u m h
    have hn : db.nutrients.find?
        (fun r => r.user == u && r.name == m.name && r.grams == m.grams) = none := by
      rw [List.find?_eq_none]
      intro x hx
      simp only [Bool.and_eq_true, beq_iff_eq]
      rintro ⟨⟨h1, h2⟩, h3⟩
      exact h x hx ⟨h1, h2, h3⟩
    simp [nutrientGetOrCreate, hn]
  · intro db iid u m rest
    show (iid, (nutrientGetOrCreate db u m).2.id) ∈
      (_get_or_create_nutrients (nutrientStep db iid u m) iid u
        rest).ingredientNutrients
    apply goc_nutrients_assoc_mono
    rw [nutrientStep_ingredientNutrients]
    exact m2mAdd_self_mem _ _ _

/-- Witness for C2: the spec's end-to-end scenario — "Thai" already
exists for user 7, so it is reused (the database is unchanged and the
resolved row is the stored one with its old id). -/
theorem claim_C2_witness :
    (∃ r ∈ thaiDb.tags, r.user = 7 ∧ r.name = "Thai") ∧
    ((tagGetOrCreate thaiDb 7 "Thai").1 = thaiDb ∧
     (tagGetOrCreate thaiDb 7 "Thai").2 ∈ thaiDb.tags ∧
     (tagGetOrCreate thaiDb 7 "Thai").2.user = 7 ∧
     (tagGetOrCreate thaiDb 7 "Thai").2.name = "Thai") :=
  ⟨by decide, claim_C2.1 thaiDb 7 "Thai" (by decide)⟩

/-! ## C3: reconciler idempotence within one call -/

theorem m2mAdd_nodup {assoc : List (Nat × Nat)} (p c : Nat) (h : assoc.Nodup) :
    (m2mAdd assoc p c).Nodup := by
  unfold m2mAdd
  split
  · exact h
  · next hm => simp [List.nodup_append, h, hm]

theorem tagStep_tags_mono (db : Db) (rid u : Nat) (nm : String) {r : TagRow}
    (h : r ∈ db.tags) : r ∈ (tagStep db rid u nm).tags := by
  cases hf : db.tags.find? (fun t => t.user == u && t.name == nm) with
  | some t => simp [tagStep, tagGetOrCreate, hf, h]
  | none => simp [tagStep, tagGetOrCreate, hf, h]

theorem tagStep_count_le (db : Db) (rid u : Nat) (nm nam : String)
    (h : (db.tags.filter (tagMatches u nam)).length ≤ 1) :
    ((tagStep db rid u nm).tags.filter (tagMatches u nam)).length ≤ 1 := by
  cases hf : db.tags.find? (fun t => t.user == u && t.name == nm) with
  | some t => simpa [tagStep, tagGetOrCreate, hf] using h
  | none =>
    have htags : (tagStep db rid u nm).tags = db.tags ++ [⟨db.nextTagId, u, nm⟩] := by
      simp [tagStep, tagGetOrCreate, hf]
    rw [htags, List.filter_append, List.length_append]
    by_cases hmm : tagMatches u nam (⟨db.nextTagId, u, nm⟩ : TagRow) = true
    · have hnm : nm = nam := by
        simpa [tagMatches] using hmm
      subst hnm
      have hzero : db.tags.filter (tagMatches u nm) = [] := by
        rw [List.filter_eq_nil_iff]
        intro x hx
        have := List.find?_eq_none.mp hf x hx
        simpa [tagMatches] using this
      simp [hzero, hmm]
    · have hb : tagMatches u nam (⟨db.nextTagId, u, nm⟩ : TagRow) = false :=
        Bool.not_eq_true _ ▸ Bool.of_not_eq_true hmm
      simp [List.filter_singleton, hb]
      exact h

theorem tagStep_count_one (db : Db) (rid u : Nat) (nm nam : String)
    (h : (db.tags.filter (tagMatches u nam)).length = 1) :
    ((tagStep db rid u nm).tags.filter (tagMatches u nam)).length = 1 := by
  cases hf : db.tags.find? (fun t => t.user == u && t.name == nm) with
  | some t => simpa [tagStep, tagGetOrCreate, hf] using h
  | none =>
    have htags : (tagStep db rid u nm).tags = db.tags ++ [⟨db.nextTagId, u, nm⟩] := by
      simp [tagStep, tagGetOrCreate, hf]
    rw [htags, List.filter_append, List.length_append]
    by_cases hmm : tagMatches u nam (⟨db.nextTagId, u, nm⟩ : TagRow) = true
    · have hnm : nm = nam := by
        simpa [tagMatches] using hmm
      subst hnm
      have hzero : db.tags.filter (tagMatches u nm) = [] := by
        rw [List.filter_eq_nil_iff]
        intro x hx
        have := List.find?_eq_none.mp hf x hx
        simpa [tagMatches] using this
      rw [hzero] at h
      simp at h
    · have hb : tagMatches u nam (⟨db.nextTagId, u, nm⟩ : TagRow) = false :=
        Bool.not_eq_true _ ▸ Bool.of_not_eq_true hmm
      simp [List.filter_singleton, hb]
      exact h

theorem tagStep_self_count (db : Db) (rid u : Nat) (nam : String)
    (h : (db.tags.filter (tagMatches u nam)).length ≤ 1) :
    ((tagStep db rid u nam).tags.filter (tagMatches u nam)).length = 1 := by
  cases hf : db.tags.find? (fun t => t.user == u && t.name == nam) with
  | some t =>
    have htags : (tagStep db rid u nam).tags = db.tags := by
      simp [tagStep, tagGetOrCreate, hf]
    rw [htags]
    have hmem : t ∈ db.tags.filter (tagMatches u nam) := by
      rw [List.mem_filter]
      refine ⟨List.mem_of_find?_eq_some hf, ?_⟩
      have := List.find?_some hf
      simpa [tagMatches] using this
    have hpos : 0 < (db.tags.filter (tagMatches u nam)).length :=
      List.length_pos.mpr (List.ne_nil_of_mem hmem)
    omega
  | none =>
    have htags : (tagStep db rid u nam).tags = db.tags ++ [⟨db.nextTagId, u, nam⟩] := by
      simp [tagStep, tagGetOrCreate, hf]
    have hzero : db.tags.filter (tagMatches u nam) = [] := by
      rw [List.filter_eq_nil_iff]
      intro x hx
      have := List.find?_eq_none.mp hf x hx
      simpa [tagMatches] using this
    rw [htags, List.filter_append, hzero]
    simp [tagMatches]

theorem tagStep_nodup (db : Db) (rid u : Nat) (nm : String)
    (h : db.recipeTags.Nodup) : (tagStep db rid u nm).recipeTags.Nodup := by
  rw [tagStep_recipeTags]
  exact m2mAdd_nodup _ _ h

theorem tagStep_self_Q (db : Db) (rid u : Nat) (nam : String) :
    ∃ r : TagRow, r ∈ (tagStep db rid u nam).tags ∧ r.user = u ∧ r.name = nam ∧
      (rid, r.id) ∈ (tagStep db rid u nam).recipeTags := by
  cases hf : db.tags.find? (fun t => t.user == u && t.name == nam) with
  | some t =>
    refine ⟨t, ?_, ?_, ?_, ?_⟩
    · exact tagStep_tags_mono db rid u nam (List.mem_of_find?_eq_some hf)
    · have := List.find?_some hf
      simp only [Bool.and_eq_true, beq_iff_eq] at this
      exact this.1
    · have := List.find?_some hf
      simp only [Bool.and_eq_true, beq_iff_eq] at this
      exact this.2
    · rw [tagStep_recipeTags]
      have h2 : (tagGetOrCreate db u nam).2 = t := by
        simp [tagGetOrCreate, hf]
      rw [h2]
      exact m2mAdd_self_mem _ _ _
  | none =>
    refine ⟨⟨db.nextTagId, u, nam⟩, ?_, rfl, rfl, ?_⟩
    · simp [tagStep, tagGetOrCreate, hf]
    · rw [tagStep_recipeTags]
      have h2 : (tagGetOrCreate db u nam).2 = ⟨db.nextTagId, u, nam⟩ := by
        simp [tagGetOrCreate, hf]
      rw [h2]
      exact m2mAdd_self_mem _ _ _

theorem tagStep_Q_mono (db : Db) (rid u : Nat) (nm nam : String)
    (h : ∃ r : TagRow, r ∈ db.tags ∧ r.user = u ∧ r.name = nam ∧
      (rid, r.id) ∈ db.recipeTags) :
    ∃ r : TagRow, r ∈ (tagStep db rid u nm).tags ∧ r.user = u ∧ r.name = nam ∧
      (rid, r.id) ∈ (tagStep db rid u nm).recipeTags := by
  rcases h with ⟨r, hr, hu, hn, ha⟩
  refine ⟨r, tagStep_tags_mono db rid u nm hr, hu, hn, ?_⟩
  rw [tagStep_recipeTags]
  exact m2mAdd_mem_of _ _ _ ha

theorem goc_tags_count_le (rid u : Nat) (nam : String) :
    ∀ (ts : List String) (db : Db),
      (db.tags.filter (tagMatches u nam)).length ≤ 1 →
      ((_get_or_create_tags db rid u ts).tags.filter (tagMatches u nam)).length ≤ 1 := by
  intro ts
  induction ts with
  | nil => intro db h; exact h
  | cons nm rest ih =>
    intro db h
    exact ih (tagStep db rid u nm) (tagStep_count_le db rid u nm nam h)

theorem goc_tags_count_one (rid u : Nat) (nam : String) :
    ∀ (ts : List String) (db : Db),
      (db.tags.filter (tagMatches u nam)).length = 1 →
      ((_get_or_create_tags db rid u ts).tags.filter (tagMatches u nam)).length = 1 := by
  intro ts
  induction ts with
  | nil => intro db h; exact h
  | cons nm rest ih =>
    intro db h
    exact ih (tagStep db rid u nm) (tagStep_count_one db rid u nm nam h)

theorem goc_tags_nodup (rid u : Nat) :
    ∀ (ts : List String) (db : Db),
      db.recipeTags.Nodup → (_get_or_create_tags db rid u ts).recipeTags.Nodup := by
  intro ts
  induction ts with
  | nil => intro db h; exact h
  | cons nm rest ih =>
    intro db h
    exact ih (tagStep db rid u nm) (tagStep_nodup db rid u nm h)

theorem goc_tags_Q_mono (rid u : Nat) (nam : String) :
    ∀ (ts : List String) (db : Db),
      (∃ r : TagRow, r ∈ db.tags ∧ r.user = u ∧ r.name = nam ∧
        (rid, r.id) ∈ db.recipeTags) →
      ∃ r : TagRow, r ∈ (_get_or_create_tags db rid u ts).tags ∧ r.user = u ∧
        r.name = nam ∧ (rid, r.id) ∈ (_get_or_create_tags db rid u ts).recipeTags := by
  intro ts
  induction ts with
  | nil => intro db h; exact h
  | cons nm rest ih =>
    intro db h
    exact ih (tagStep db rid u nm) (tagStep_Q_mono db rid u nm nam h)

theorem goc_tags_main (rid u : Nat) (nam : String) :
    ∀ (ts : List String) (db : Db), nam ∈ ts →
      (db.tags.filter (tagMatches u nam)).length ≤ 1 →
      db.recipeTags.Nodup →
      ((_get_or_create_tags db rid u ts).tags.filter (tagMatches u nam)).length = 1 ∧
      (∃ r : TagRow, r ∈ (_get_or_create_tags db rid u ts).tags ∧ r.user = u ∧
        r.name = nam ∧ (rid, r.id) ∈ (_get_or_create_tags db rid u ts).recipeTags) ∧
      (_get_or_create_tags db rid u ts).recipeTags.Nodup := by
  intro ts
  induction ts with
  | nil => intro db h; cases h
  | cons nm rest ih =>
    intro db hmem hcount hnodup
    rcases List.mem_cons.mp hmem with heq | htail
    · subst heq
      refine ⟨?_, ?_, ?_⟩
      · exact goc_tags_count_one rid u nam rest (tagStep db rid u nam)
          (tagStep_self_count db rid u nam hcount)
      · exact goc_tags_Q_mono rid u nam rest (tagStep db rid u nam)
          (tagStep_self_Q db rid u nam)
      · exact goc_tags_nodup rid u rest (tagStep db rid u nam)
          (tagStep_nodup db rid u nam hnodup)
    · exact ih (tagStep db rid u nm) htail
        (tagStep_count_le db rid u nm nam hcount)
        (tagStep_nodup db rid u nm hnodup)

theorem length_filter_eq_one_of_nodup {α} [DecidableEq α] :
    ∀ (l : List α), l.Nodup → ∀ a ∈ l, (l.filter (fun x => x = a)).length = 1 := by
  intro l
  induction l with
  | nil => intro _ a ha; cases ha
  | cons x xs ih =>
    intro h a ha
    have hx := List.nodup_cons.mp h
    rcases List.mem_cons.mp ha with heq | hmem
    · subst heq
      have hnil : xs.filter (fun y => y = a) = [] := by
        rw [List.filter_eq_nil_iff]
        intro b hb
        simp only [decide_eq_true_eq]
        intro hba
        exact hx.1 (hba ▸ hb)
      simp [List.filter_cons, hnil]
    · have hxa : ¬(x = a) := fun he => hx.1 (he ▸ hmem)
      simp only [List.filter_cons, decide_eq_true_eq, hxa, if_false]
      exact ih hx.2 a hmem

/-- C3: within a single reconciliation call, a child name occurring in
the input list (possibly several times) ends up with exactly one
matching row for its (user, name) pair and exactly one association on
the parent, provided the database starts with at most one matching row
and no duplicate associations; and adding an already-associated child is
a no-op. -/
theorem claim_C3 (db : Db) (rid u : Nat) (ts : List String) (nam : String)
    (hmem : nam ∈ ts)
    (hcount : (db.tags.filter (tagMatches u nam)).length ≤ 1)
    (hnodup : db.recipeTags.Nodup) :
    ((_get_or_create_tags db rid u ts).tags.filter (tagMatches u nam)).length = 1 ∧
    (∃ r : TagRow, r ∈ (_get_or_create_tags db rid u ts).tags ∧ r.user = u ∧
      r.name = nam ∧
      ((_get_or_create_tags db rid u ts).recipeTags.filter
        (fun e => e = (rid, r.id))).length = 1) ∧
    (∀ (assoc : List (Nat × Nat)) (p c : Nat), (p, c) ∈ assoc →
      m2mAdd assoc p c = assoc) := by
  rcases goc_tags_main rid u nam ts db hmem hcount hnodup with ⟨h1, ⟨r, hr, hu, hn, ha⟩, h3⟩
  exact ⟨h1, ⟨r, hr, hu, hn, length_filter_eq_one_of_nodup _ h3 _ ha⟩,
    fun assoc p c h => m2mAdd_eq_of_mem h⟩

/-- Witness for C3: submitting "Thai" twice in one payload on an empty
database yields one row and one association. -/
theorem claim_C3_witness :
    ("Thai" ∈ (["Thai", "Thai"] : List String)) ∧
    ((({} : Db).tags.filter (tagMatches 7 "Thai")).length ≤ 1) ∧
    (({} : Db).recipeTags.Nodup) ∧
    (((_get_or_create_tags {} 1 7 ["Thai", "Thai"]).tags.filter
        (tagMatches 7 "Thai")).length = 1 ∧
     (∃ r : TagRow, r ∈ (_get_or_create_tags {} 1 7 ["Thai", "Thai"]).tags ∧
        r.user = 7 ∧ r.name = "Thai" ∧
        ((_get_or_create_tags {} 1 7 ["Thai", "Thai"]).recipeTags.filter
          (fun e => e = (1, r.id))).length = 1) ∧
     (∀ (assoc : List (Nat × Nat)) (p c : Nat), (p, c) ∈ assoc →
        m2mAdd assoc p c = assoc)) :=
  ⟨by decide, by decide, by decide,
    claim_C3 {} 1 7 ["Thai", "Thai"] "Thai" (by decide) (by decide) (by decide)⟩

/-! ## C4: ownership-scoped querying -/

theorem mem_tagGetQueryset {db : Db} {u : Nat} {q : TagRow} :
    q ∈ tagGetQueryset db u ↔ q ∈ db.tags ∧ q.user = u := by
  unfold tagGetQueryset
  rw [(List.perm_insertionSort (nameDesc TagRow.name) _).mem_iff, List.mem_filter]
  simp

theorem mem_ingredientGetQueryset {db : Db} {u : Nat} {q : IngredientRow} :
    q ∈ ingredientGetQueryset db u ↔ q ∈ db.ingredients ∧ q.user = u := by
  unfold ingredientGetQueryset
  rw [(List.perm_insertionSort (nameDesc IngredientRow.name) _).mem_iff, List.mem_filter]
  simp

theorem mem_nutrientGetQueryset {db : Db} {u : Nat} {q : NutrientRow} :
    q ∈ nutrientGetQueryset db u ↔ q ∈ db.nutrients ∧ q.user = u := by
  unfold nutrientGetQueryset
  rw [List.mem_filter]
  simp

theorem joinFilterByIds_subset {rs : List RecipeRow} {a : List (Nat × Nat)}
    {ids : List Int} {x : RecipeRow} (h : x ∈ joinFilterByIds rs a ids) : x ∈ rs := by
  rcases List.mem_flatMap.mp h with ⟨r, hr, hx⟩
  rcases List.mem_map.mp hx with ⟨e, _, he⟩
  exact he ▸ hr

theorem filterStage_sub {qs out : List RecipeRow} {a : List (Nat × Nat)}
    {p : Option String} (h : filterStage qs a p = .ok out) : ∀ x ∈ out, x ∈ qs := by
  cases p with
  | none => cases h; intro x hx; exact hx
  | some s =>
    by_cases hs : s = ""
    · rw [filterStage, if_pos hs] at h
      cases h; intro x hx; exact hx
    · rw [filterStage, if_neg hs] at h
      cases hp : _params_to_ints s with
      | error e => rw [hp] at h; cases h
      | ok ids =>
        rw [hp] at h
        cases h
        intro x hx
        exact joinFilterByIds_subset hx

theorem recipeGetQueryset_ok_mem {db : Db} {u : Nat} {tp ip : Option String}
    {res : List RecipeRow} (h : recipeGetQueryset db u tp ip = .ok res) :
    ∀ q ∈ res, q ∈ db.recipes ∧ q.user = u := by
  unfold recipeGetQueryset at h
  cases hfs1 : filterStage db.recipes db.recipeTags tp with
  | error e => rw [hfs1] at h; cases h
  | ok qs1 =>
    rw [hfs1] at h
    dsimp only at h
    cases hfs2 : filterStage qs1 db.recipeIngredients ip with
    | error e => rw [hfs2] at h; cases h
    | ok qs2 =>
      rw [hfs2] at h
      dsimp only at h
      cases h
      intro q hq
      rw [(List.perm_insertionSort (idDesc RecipeRow.id) _).mem_iff,
          List.mem_dedup, List.mem_filter] at hq
      rcases hq with ⟨hq2, hqu⟩
      refine ⟨filterStage_sub hfs1 _ (filterStage_sub hfs2 _ hq2), by simpa using hqu⟩

theorem eq_of_mem_map_id_nodup {α} (idOf : α → Nat) {l : List α}
    (h : (l.map idOf).Nodup) {a b : α} (ha : a ∈ l) (hb : b ∈ l)
    (he : idOf a = idOf b) : a = b := by
  by_contra hne
  have hp : l.Pairwise (fun x y => idOf x ≠ idOf y) := (List.pairwise_map).mp h
  have hsymm : Symmetric (fun x y : α => idOf x ≠ idOf y) := fun x y hxy => hxy.symm
  exact hp.forall hsymm ha hb hne he

theorem tag_lookup_foreign_none (db : Db) (u : Nat) {q : TagRow}
    (hq : q ∈ db.tags) (hne : q.user ≠ u) (hnd : (db.tags.map TagRow.id).Nodup) :
    lookupByPk (tagGetQueryset db u) TagRow.id q.id = none := by
  unfold lookupByPk
  rw [List.find?_eq_none]
  intro x hx
  rcases mem_tagGetQueryset.mp hx with ⟨hxm, hxu⟩
  simp only [beq_iff_eq]
  intro hid
  have := eq_of_mem_map_id_nodup TagRow.id hnd hxm hq hid
  exact hne (this ▸ hxu)

theorem ingredient_lookup_foreign_none (db : Db) (u : Nat) {q : IngredientRow}
    (hq : q ∈ db.ingredients) (hne : q.user ≠ u)
    (hnd : (db.ingredients.map IngredientRow.id).Nodup) :
    lookupByPk (ingredientGetQueryset db u) IngredientRow.id q.id = none := by
  unfold lookupByPk
  rw [List.find?_eq_none]
  intro x hx
  rcases mem_ingredientGetQueryset.mp hx with ⟨hxm, hxu⟩
  simp only [beq_iff_eq]
  intro hid
  have := eq_of_mem_map_id_nodup IngredientRow.id hnd hxm hq hid
  exact hne (this ▸ hxu)

theorem nutrient_lookup_foreign_none (db : Db) (u : Nat) {q : NutrientRow}
    (hq : q ∈ db.nutrients) (hne : q.user ≠ u)
    (hnd : (db.nutrients.map NutrientRow.id).Nodup) :
    lookupByPk (nutrientGetQueryset db u) NutrientRow.id q.id = none := by
  unfold lookupByPk
  rw [List.find?_eq_none]
  intro x hx
  rcases mem_nutrientGetQueryset.mp hx with ⟨hxm, hxu⟩
  simp only [beq_iff_eq]
  intro hid
  have := eq_of_mem_map_id_nodup NutrientRow.id hnd hxm hq hid
  exact hne (this ▸ hxu)

theorem recipe_lookup_foreign_none (db : Db) (u : Nat) {q : RecipeRow}
    {qs : List RecipeRow} (hqs : recipeGetQueryset db u none none = .ok qs)
    (hq : q ∈ db.recipes) (hne : q.user ≠ u)
    (hnd : (db.recipes.map RecipeRow.id).Nodup) :
    lookupByPk qs RecipeRow.id q.id = none := by
  unfold lookupByPk
  rw [List.find?_eq_none]
  intro x hx
  rcases recipeGetQueryset_ok_mem hqs x hx with ⟨hxm, hxu⟩
  simp only [beq_iff_eq]
  intro hid
  have := eq_of_mem_map_id_nodup RecipeRow.id hnd hxm hq hid
  exact hne (this ▸ hxu)

/-- C4: all four querysets observe only the requesting user's rows; a
foreign row is absent from list output, its pk resolves to a 404 on
detail routes, and a destroy attempt leaves the database untouched with
a 404 (never a permission-denied — `lookupByPk` has no such outcome);
and the listing a user observes depends only on that user's rows. -/
theorem claim_C4 :
    (∀ (db : Db) (u : Nat), ∀ q ∈ tagGetQueryset db u, q ∈ db.tags ∧ q.user = u) ∧
    (∀ (db : Db) (u : Nat), ∀ q ∈ ingredientGetQueryset db u,
      q ∈ db.ingredients ∧ q.user = u) ∧
    (∀ (db : Db) (u : Nat), ∀ q ∈ nutrientGetQueryset db u,
      q ∈ db.nutrients ∧ q.user = u) ∧
    (∀ (db : Db) (u : Nat) (tp ip : Option String) (res : List RecipeRow),
      recipeGetQueryset db u tp ip = .ok res →
        ∀ q ∈ res, q ∈ db.recipes ∧ q.user = u) ∧
    (∀ (db : Db) (u : Nat), ∀ q ∈ db.tags, q.user ≠ u →
      q ∉ tagGetQueryset db u ∧
      ((db.tags.map TagRow.id).Nodup →
        lookupByPk (tagGetQueryset db u) TagRow.id q.id = none ∧
        tagDestroy db u q.id = (db, false))) ∧
    (∀ (db : Db) (u : Nat), ∀ q ∈ db.ingredients, q.user ≠ u →
      q ∉ ingredientGetQueryset db u ∧
      ((db.ingredients.map IngredientRow.id).Nodup →
        lookupByPk (ingredientGetQueryset db u) IngredientRow.id q.id = none ∧
        ingredientDestroy db u q.id = (db, false))) ∧
    (∀ (db : Db) (u : Nat), ∀ q ∈ db.nutrients, q.user ≠ u →
      q ∉ nutrientGetQueryset db u ∧
      ((db.nutrients.map NutrientRow.id).Nodup →
        lookupByPk (nutrientGetQueryset db u) NutrientRow.id q.id = none ∧
        nutrientDestroy db u q.id = (db, false))) ∧
    (∀ (db : Db) (u : Nat), ∀ q ∈ db.recipes, q.user ≠ u →
      (∀ (tp ip : Option String) (res : List RecipeRow),
        recipeGetQueryset db u tp ip = .ok res → q ∉ res) ∧
      ((db.recipes.map RecipeRow.id).Nodup →
        recipeDestroy db u q.id = (db, false))) ∧
    (∀ (db1 db2 : Db) (u : Nat),
      db1.tags.filter (fun r => r.user == u) = db2.tags.filter (fun r => r.user == u) →
      tagGetQueryset db1 u = tagGetQueryset db2 u) ∧
    (∀ (db1 db2 : Db) (u : Nat),
      db1.ingredients.filter (fun r => r.user == u) =
        db2.ingredients.filter (fun r => r.user == u) →
      ingredientGetQueryset db1 u = ingredientGetQueryset db2 u) ∧
    (∀ (db1 db2 : Db) (u : Nat),
      db1.nutrients.filter (fun r => r.user == u) =
        db2.nutrients.filter (fun r => r.user == u) →
      nutrientGetQueryset db1 u = nutrientGetQueryset db2 u) ∧
    (∀ (db1 db2 : Db) (u : Nat),
      db1.recipes.filter (fun r => r.user == u) =
        db2.recipes.filter (fun r => r.user == u) →
      recipeGetQueryset db1 u none none = recipeGetQueryset db2 u none none) := by
  refine ⟨?_, ?_, ?_, ?_, ?_, ?_, ?_, ?_, ?_, ?_, ?_, ?_⟩
  · intro db u q hq; exact mem_tagGetQueryset.mp hq
  · intro db u q hq; exact mem_ingredientGetQueryset.mp hq
  · intro db u q hq; exact mem_nutrientGetQueryset.mp hq
  · intro db u tp ip res h; exact recipeGetQueryset_ok_mem h
  · intro db u q hq hne
    refine ⟨fun hmem => hne (mem_tagGetQueryset.mp hmem).2, fun hnd => ?_⟩
    have hl := tag_lookup_foreign_none db u hq hne hnd
    exact ⟨hl, by rw [tagDestroy, hl]⟩
  · intro db u q hq hne
    refine ⟨fun hmem => hne (mem_ingredientGetQueryset.mp hmem).2, fun hnd => ?_⟩
    have hl := ingredient_lookup_foreign_none db u hq hne hnd
    exact ⟨hl, by rw [ingredientDestroy, hl]⟩
  · intro db u q hq hne
    refine ⟨fun hmem => hne (mem_nutrientGetQueryset.mp hmem).2, fun hnd => ?_⟩
    have hl := nutrient_lookup_foreign_none db u hq hne hnd
    exact ⟨hl, by rw [nutrientDestroy, hl]⟩
  · intro db u q hq hne
    refine ⟨fun tp ip res h hmem => hne ((recipeGetQueryset_ok_mem h q hmem).2),
      fun hnd => ?_⟩
    have hl := recipe_lookup_foreign_none db u rfl hq hne hnd
    rw [recipeDestroy]
    rw [show recipeGetQueryset db u none none =
      .ok (List.insertionSort (idDesc RecipeRow.id)
        ((db.recipes.filter (fun r => r.user == u)).dedup)) from rfl]
    dsimp only
    rw [hl]
  · intro db1 db2 u h
    unfold tagGetQueryset
    rw [h]
  · intro db1 db2 u h
    unfold ingredientGetQueryset
    rw [h]
  · intro db1 db2 u h
    unfold nutrientGetQueryset
    rw [h]
  · intro db1 db2 u h
    rw [show recipeGetQueryset db1 u none none =
      .ok (List.insertionSort (idDesc RecipeRow.id)
        ((db1.recipes.filter (fun r => r.user == u)).dedup)) from rfl,
      show recipeGetQueryset db2 u none none =
      .ok (List.insertionSort (idDesc RecipeRow.id)
        ((db2.recipes.filter (fun r => r.user == u)).dedup)) from rfl,
      h]

/-- Witness for C4: user 8's tag "B" is invisible to user 7 and a
delete attempt by user 7 is a 404 that changes nothing. -/
theorem claim_C4_witness :
    ((⟨2, 8, "B"⟩ : TagRow) ∈ isoDb.tags) ∧ ((8 : Nat) ≠ 7) ∧
    ((⟨2, 8, "B"⟩ : TagRow) ∉ tagGetQueryset isoDb 7 ∧
      ((isoDb.tags.map TagRow.id).Nodup →
        lookupByPk (tagGetQueryset isoDb 7) TagRow.id 2 = none ∧
        tagDestroy isoDb 7 2 = (isoDb, false))) :=
  ⟨by decide, by decide, claim_C4.2.2.2.2.1 isoDb 7 ⟨2, 8, "B"⟩ (by decide) (by decide)⟩

/-! ## C7: recipe filtering, any-of semantics with dedup -/

theorem mem_joinFilterByIds {rs : List RecipeRow} {a : List (Nat × Nat)}
    {ids : List Int} {x : RecipeRow} :
    x ∈ joinFilterByIds rs a ids ↔
      x ∈ rs ∧ ∃ e ∈ a, e.1 = x.id ∧ (Int.ofNat e.2) ∈ ids := by
  unfold joinFilterByIds
  rw [List.mem_flatMap]
  constructor
  · rintro ⟨r, hr, hx⟩
    rcases List.mem_map.mp hx with ⟨e, he, hex⟩
    subst hex
    rcases List.mem_filter.mp he with ⟨hea, hcond⟩
    simp only [Bool.and_eq_true, beq_iff_eq] at hcond
    refine ⟨hr, e, hea, hcond.1, ?_⟩
    have := hcond.2
    simpa [List.contains, List.elem_iff] using this
  · rintro ⟨hx, e, he, h1, h2⟩
    refine ⟨x, hx, List.mem_map.mpr ⟨e, List.mem_filter.mpr ⟨he, ?_⟩, rfl⟩⟩
    simp only [Bool.and_eq_true, beq_iff_eq]
    exact ⟨h1, by simpa [List.contains, List.elem_iff] using h2⟩

theorem filterStage_some_ok {qs : List RecipeRow} {a : List (Nat × Nat)}
    {s : String} {ids : List Int} (hs : s ≠ "") (hp : _params_to_ints s = .ok ids) :
    filterStage qs a (some s) = .ok (joinFilterByIds qs a ids) := by
  rw [filterStage, if_neg hs, hp]

theorem recipeGetQueryset_of_stages {db : Db} {u : Nat} {tp ip : Option String}
    {qs1 qs2 : List RecipeRow}
    (h1 : filterStage db.recipes db.recipeTags tp = .ok qs1)
    (h2 : filterStage qs1 db.recipeIngredients ip = .ok qs2) :
    recipeGetQueryset db u tp ip =
      .ok (List.insertionSort (idDesc RecipeRow.id)
        ((qs2.filter (fun r => r.user == u)).dedup)) := by
  unfold recipeGetQueryset
  rw [h1]
  dsimp only
  rw [h2]

theorem mem_sortDedupFilter {u : Nat} {l : List RecipeRow} {r : RecipeRow} :
    r ∈ List.insertionSort (idDesc RecipeRow.id)
        ((l.filter (fun x => x.user == u)).dedup) ↔ r ∈ l ∧ r.user = u := by
  rw [(List.perm_insertionSort (idDesc RecipeRow.id) _).mem_iff,
      List.mem_dedup, List.mem_filter]
  simp

theorem nodup_sortDedupFilter {u : Nat} {l : List RecipeRow} :
    (List.insertionSort (idDesc RecipeRow.id)
      ((l.filter (fun x => x.user == u)).dedup)).Nodup :=
  (List.perm_insertionSort (idDesc RecipeRow.id) _).nodup_iff.mpr
    (List.nodup_dedup _)

/-- C7: with `tags` and/or `ingredients` filter parameters that parse to
id lists, the recipe listing returns exactly the user's recipes having
at least one association whose child id is in the requested set (any-of
semantics), each exactly once (the result list has no duplicates). -/
theorem claim_C7 (db : Db) (u : Nat) :
    (∀ (s : String) (tids : List Int), s ≠ "" → _params_to_ints s = .ok tids →
      ∃ res, recipeGetQueryset db u (some s) none = .ok res ∧ res.Nodup ∧
        (∀ r : RecipeRow, r ∈ res ↔ r ∈ db.recipes ∧ r.user = u ∧
          ∃ e ∈ db.recipeTags, e.1 = r.id ∧ (Int.ofNat e.2) ∈ tids)) ∧
    (∀ (s : String) (iids : List Int), s ≠ "" → _params_to_ints s = .ok iids →
      ∃ res, recipeGetQueryset db u none (some s) = .ok res ∧ res.Nodup ∧
        (∀ r : RecipeRow, r ∈ res ↔ r ∈ db.recipes ∧ r.user = u ∧
          ∃ e ∈ db.recipeIngredients, e.1 = r.id ∧ (Int.ofNat e.2) ∈ iids)) ∧
    (∀ (st si : String) (tids iids : List Int),
      st ≠ "" → _params_to_ints st = .ok tids →
      si ≠ "" → _params_to_ints si = .ok iids →
      ∃ res, recipeGetQueryset db u (some st) (some si) = .ok res ∧ res.Nodup ∧
        (∀ r : RecipeRow, r ∈ res ↔ r ∈ db.recipes ∧ r.user = u ∧
          (∃ e ∈ db.recipeTags, e.1 = r.id ∧ (Int.ofNat e.2) ∈ tids) ∧
          (∃ e ∈ db.recipeIngredients, e.1 = r.id ∧ (Int.ofNat e.2) ∈ iids))) := by
  refine ⟨fun s tids hs hp => ?_, fun s iids hs hp => ?_,
    fun st si tids iids hst hpt hsi hpi => ?_⟩
  · refine ⟨_, recipeGetQueryset_of_stages (filterStage_some_ok hs hp) rfl, nodup_sortDedupFilter, ?_⟩
    intro r
    rw [mem_sortDedupFilter, mem_joinFilterByIds]
    constructor
    · rintro ⟨⟨h1, h2⟩, h3⟩; exact ⟨h1, h3, h2⟩
    · rintro ⟨h1, h3, h2⟩; exact ⟨⟨h1, h2⟩, h3⟩
  · refine ⟨_, recipeGetQueryset_of_stages rfl (filterStage_some_ok hs hp), nodup_sortDedupFilter, ?_⟩
    intro r
    rw [mem_sortDedupFilter, mem_joinFilterByIds]
    constructor
    · rintro ⟨⟨h1, h2⟩, h3⟩; exact ⟨h1, h3, h2⟩
    · rintro ⟨h1, h3, h2⟩; exact ⟨⟨h1, h2⟩, h3⟩
  · refine ⟨_, recipeGetQueryset_of_stages (filterStage_some_ok hst hpt)
      (filterStage_some_ok hsi hpi), nodup_sortDedupFilter, ?_⟩
    intro r
    rw [mem_sortDedupFilter, mem_joinFilterByIds, mem_joinFilterByIds]
    constructor
    · rintro ⟨⟨⟨h1, h2⟩, h3⟩, h4⟩; exact ⟨h1, h4, h2, h3⟩
    · rintro ⟨h1, h4, h2, h3⟩; exact ⟨⟨⟨h1, h2⟩, h3⟩, h4⟩

/-- Witness for C7: the spec's scenario — a recipe tagged with both
requested tags appears exactly once when filtering by `tags=1,2`. -/
theorem claim_C7_witness :
    (("1,2" : String) ≠ "") ∧ _params_to_ints "1,2" = .ok [1, 2] ∧
    (∃ res, recipeGetQueryset twoTagDb 7 (some "1,2") none = .ok res ∧ res.Nodup ∧
      (∀ r : RecipeRow, r ∈ res ↔ r ∈ twoTagDb.recipes ∧ r.user = 7 ∧
        ∃ e ∈ twoTagDb.recipeTags, e.1 = r.id ∧ (Int.ofNat e.2) ∈ [(1 : Int), 2])) :=
  ⟨by decide, rfl, (claim_C7 twoTagDb 7).1 "1,2" [1, 2] (by decide) rfl⟩
